import Mathlib

/-!
Verification development for the rule-set build tool in
`tools_dlc_to_surge.py`.  The Python source is embedded shallowly:

* Python strings are Lean `String`s; character-level operations are
  implemented over `String.data` (`List Char`) so that every definition
  evaluates in the kernel.
* The environment flags `USE_WILDCARD` and `ALLOW_COMMENTS` become
  explicit `Bool` parameters.
* The filesystem (the `dlc/data` directory) is an association list from
  file names to their list of lines; `resolve_list`'s shared mutable
  `cache` dict becomes explicit state passing, its in-place mutated
  `stack` becomes a list argument extended on recursive calls, and the
  unbounded Python recursion becomes fuel-indexed recursion returning
  `none` when the fuel runs out.
* All anchored regular expressions of the source (`include_re`,
  `prefixed_re`, the two shapes in `regexp_to_surge`, the validator
  whitelist) are literal-head / character-class matchers, which is what
  those regexes denote.  Python's `$`-before-a-final-newline quirk never
  arises: every string reaching a matcher has been stripped first
  (`strip_inline_comment` / `write_ruleset` / `regexp_to_surge` all
  strip), so `$` is modelled as end of string.
-/

/-- Python's whitespace predicate for `str.strip` / `str.split` / `\s`
(ASCII part, which is all the tool's data contains). -/
def pyIsSpace (c : Char) : Bool :=
  c = ' ' || c = '\t' || c = '\n' || c = '\r' || c = '\x0b' || c = '\x0c'

/-- Python `str.strip()`: drop whitespace from both ends. -/
def pyStrip (s : String) : String :=
  ⟨((s.data.dropWhile pyIsSpace).reverse.dropWhile pyIsSpace).reverse⟩

/-- Helper for Python `str.split()`: accumulate the current word (reversed). -/
def wordsAux : List Char → List Char → List String
  | [], acc => if acc = [] then [] else [⟨acc.reverse⟩]
  | c :: cs, acc =>
    if pyIsSpace c then
      if acc = [] then wordsAux cs [] else ⟨acc.reverse⟩ :: wordsAux cs []
    else wordsAux cs (c :: acc)

/-- Python `str.split()` with no argument: split on whitespace runs,
producing no empty tokens. -/
def pySplit (s : String) : List String := wordsAux s.data []

/-- Python `' '.join(tokens)`. -/
def joinSp : List String → String
  | [] => ""
  | [t] => t
  | t :: ts => t ++ " " ++ joinSp ts

/-- Python `' -> '.join(path)` (used in the cycle diagnostic). -/
def joinArrow : List String → String
  | [] => ""
  | [t] => t
  | t :: ts => t ++ " -> " ++ joinArrow ts

/-- Drop a literal sequence of characters from the front, or fail.
This is regex matching of an escaped-literal head. -/
def dropLit : List Char → List Char → Option (List Char)
  | [], s => some s
  | c :: cs, d :: ds => if c = d then dropLit cs ds else none
  | _ :: _, [] => none

/-- `strip_inline_comment` (source lines 15-17): cut at the first `#`
(everything from the first `#` onward is discarded), then strip. -/
def strip_inline_comment (s : String) : String :=
  pyStrip ⟨s.data.takeWhile (fun c => decide (c ≠ '#'))⟩

/-- A rule record, mirroring `Rule = namedtuple("Rule", "kind value attrs")`.
`attrs` is a Python `set`, hence a `Finset`. -/
structure Rule where
  kind : String
  value : String
  attrs : Finset String
deriving DecidableEq

/-- Result of `parse_line`: either an include directive (the Python pair
`("include", name)`) or a concrete rule. -/
inductive Parsed where
  | inc (target : String) : Parsed
  | rule (r : Rule) : Parsed
deriving DecidableEq

/-- Character class `[A-Za-z0-9_.\-]` of `include_re`. -/
def isNameChar (c : Char) : Bool :=
  c.isAlpha || c.isDigit || c = '_' || c = '.' || c = '-'

/-- `include_re.match`: the whole line is `include:<name>` with `<name>`
non-empty over `[A-Za-z0-9_.\-]`. -/
def matchInclude (l : List Char) : Option String :=
  match dropLit "include:".data l with
  | some rest =>
    if rest ≠ [] ∧ rest.all isNameChar then some ⟨rest⟩ else none
  | none => none

/-- One alternative of `prefixed_re`: literal `<pfx>:` head followed by a
non-empty body (`.+$`: non-empty and free of newlines). -/
def matchOnePfx (pfx : String) (l : List Char) : Option (List Char) :=
  match dropLit (pfx ++ ":").data l with
  | some body =>
    if body ≠ [] ∧ body.all (fun c => decide (c ≠ '\n')) then some body
    else none
  | none => none

/-- `prefixed_re.match`: `^(domain|full|keyword|regexp):(.+)$`. -/
def matchPrefixed (l : List Char) : Option (String × List Char) :=
  match matchOnePfx "domain" l with
  | some body => some ("domain", body)
  | none =>
  match matchOnePfx "full" l with
  | some body => some ("full", body)
  | none =>
  match matchOnePfx "keyword" l with
  | some body => some ("keyword", body)
  | none =>
  match matchOnePfx "regexp" l with
  | some body => some ("regexp", body)
  | none => none

/-- `t.startswith('@') and len(t) > 1`: a token is an attribute tag iff
it starts with `@` and has length > 1. -/
def tokIsTag (t : String) : Bool :=
  decide (t.data.head? = some '@') && decide (1 < t.data.length)

/-- `parse_attrs` (source lines 22-29): split tokens into the kept value
tokens (in order) and the set of tag names (`@` stripped). -/
def parse_attrs : List String → List String × Finset String
  | [] => ([], ∅)
  | t :: ts =>
    let p := parse_attrs ts
    if tokIsTag t then (p.1, insert (⟨t.data.drop 1⟩ : String) p.2)
    else if t = "" then p
    else (t :: p.1, p.2)

/-- `line.replace('\uFEFF','')`: remove every byte-order marker. -/
def bomStrip (s : String) : String :=
  ⟨s.data.filter (fun c => decide (c ≠ '\uFEFF'))⟩

/-- The part of `parse_line` after BOM removal and comment stripping. -/
def parseStripped (line : String) : Option Parsed :=
  if line = "" then none
  else
    match matchInclude line.data with
    | some nm => some (.inc nm)
    | none =>
      match matchPrefixed line.data with
      | some (pfx, body) =>
        let tokens := pySplit (pyStrip ⟨body⟩)
        let p := parse_attrs tokens
        if p.1 = [] then none else some (.rule ⟨pfx, joinSp p.1, p.2⟩)
      | none =>
        let tokens := pySplit line
        let p := parse_attrs tokens
        if p.1 = [] then none else some (.rule ⟨"domain", joinSp p.1, p.2⟩)

/-- `parse_line` (source lines 31-52). -/
def parse_line (line : String) : Option Parsed :=
  parseStripped (strip_inline_comment (bomStrip line))

example : parse_line "domain.com @ads @cn"
    = some (.rule ⟨"domain", "domain.com", {"ads", "cn"}⟩) := by decide

example : parse_line "@onlytag" = none := by decide

example : parse_line "include:geolocation-cn" = some (.inc "geolocation-cn") := by
  decide

example : parse_line "full:login.example.org @ads"
    = some (.rule ⟨"full", "login.example.org", {"ads"}⟩) := by decide

example : parse_line "  # pure comment" = none := by decide

/-! ## Pattern translator (`regexp_to_surge`, source lines 95-113) -/

/-- Character class `[A-Za-z0-9\\.\-]` of the two recognized shapes:
letters, digits, backslash, dot, dash. -/
def isShapeChar (c : Char) : Bool :=
  c.isAlpha || c.isDigit || c = '\\' || c = '.' || c = '-'

/-- Tail of both shape regexes: `([A-Za-z0-9\\.\-]+)\$` at end of input.
Succeeds iff the input is a non-empty class run followed by a final `$`,
returning the run.  (`$` is not in the class, so the split is unique.) -/
def baseDollar (l : List Char) : Option (List Char) :=
  if l.getLast? = some '$' then
    let base := l.dropLast
    if base ≠ [] ∧ base.all isShapeChar then some base else none
  else none

/-- First recognized shape: the literal head `^(.+\.)?` (every character
of the regex is escaped there) then `([A-Za-z0-9\\.\-]+)\$`. -/
def matchShape1 (p : String) : Option (List Char) :=
  match dropLit "^(.+\\.)?".data p.data with
  | some rest => baseDollar rest
  | none => none

/-- Second recognized shape: `^` then `([A-Za-z0-9\\.\-]+)\$`. -/
def matchShape2 (p : String) : Option (List Char) :=
  match p.data with
  | '^' :: rest => baseDollar rest
  | _ => none

/-- Python `base.replace('\\.', '.')`: left-to-right, non-overlapping. -/
def replDotEsc : List Char → List Char
  | '\\' :: '.' :: rest => '.' :: replDotEsc rest
  | c :: rest => c :: replDotEsc rest
  | [] => []

/-- The fallback's anchor stripping: `p[1:] if p.startswith('^') else p`,
then `host[:-1] if host.endswith('$') else host`. -/
def dropAnchors (p : String) : String :=
  let h1 := if p.data.head? = some '^' then p.data.drop 1 else p.data
  let h2 := if h1.getLast? = some '$' then h1.dropLast else h1
  ⟨h2⟩

/-- `regexp_to_surge` (source lines 95-113), with `USE_WILDCARD` as the
explicit parameter `uw`. -/
def regexp_to_surge (uw : Bool) (pat : String) : List String :=
  let p := pyStrip pat
  match matchShape1 p with
  | some base =>
    let b : String := ⟨replDotEsc base⟩
    ("DOMAIN," ++ b) :: (if uw then ["DOMAIN-WILDCARD,*." ++ b] else [])
  | none =>
    match matchShape2 p with
    | some base => ["DOMAIN," ++ (⟨replDotEsc base⟩ : String)]
    | none =>
      ["URL-REGEX,^https?://" ++ dropAnchors p ++ "(?::\\d+)?(?:/|$)"]

example : regexp_to_surge false "^(.+\\.)?example\\.com$" = ["DOMAIN,example.com"] := by
  decide

example : regexp_to_surge true "^(.+\\.)?example\\.com$"
    = ["DOMAIN,example.com", "DOMAIN-WILDCARD,*.example.com"] := by decide

example : regexp_to_surge true "^foo\\.bar$" = ["DOMAIN,foo.bar"] := by decide

example : regexp_to_surge false "^tracker\\.[a-z]+\\.net$"
    = ["URL-REGEX,^https?://tracker\\.[a-z]+\\.net(?::\\d+)?(?:/|$)"] := by decide

/-! ## Line validator (`valid_line`, source lines 79-93) -/

/-- `VAL_DOMAIN = [A-Za-z0-9.-]` (note: no backslash here). -/
def isValDomainChar (c : Char) : Bool :=
  c.isAlpha || c.isDigit || c = '.' || c = '-'

/-- One whitelist pattern `^<head><bodyclass>+$`: literal head, then a
non-empty run of characters satisfying `p`. -/
def headBodyOk (head : String) (p : Char → Bool) (s : String) : Bool :=
  match dropLit head.data s.data with
  | some body => body ≠ [] && body.all p
  | none => false

/-- `valid_line` (source lines 89-93) over the `STRICT_PATTERNS`
whitelist; the `DOMAIN-WILDCARD` pattern is present only when
`USE_WILDCARD` (parameter `uw`) is set. -/
def valid_line (uw : Bool) (s : String) : Bool :=
  headBodyOk "DOMAIN," isValDomainChar s ||
  headBodyOk "DOMAIN-SUFFIX," isValDomainChar s ||
  headBodyOk "DOMAIN-KEYWORD," (fun c => decide (c ≠ ',') && !pyIsSpace c) s ||
  headBodyOk "URL-REGEX," (fun c => decide (c ≠ '\n')) s ||
  (uw && headBodyOk "DOMAIN-WILDCARD,*." isValDomainChar s)

example : valid_line false "DOMAIN-KEYWORD,google" = true := by decide
example : valid_line false "DOMAIN-KEYWORD,goo,gle" = false := by decide
example : valid_line false "DOMAIN-WILDCARD,*.x.com" = false := by decide
example : valid_line true "DOMAIN-WILDCARD,*.x.com" = true := by decide
example : valid_line true "URL-REGEX,^https?://tracker\\.[a-z]+\\.net(?::\\d+)?(?:/|$)" = true := by decide

/-! ## Rendering and writing (source lines 115-147) -/

/-- `to_surge_lines` (source lines 115-126); `uw` is `USE_WILDCARD`,
`ac` is `ALLOW_COMMENTS`. -/
def to_surge_lines (uw ac : Bool) (r : Rule) : List String :=
  if r.kind = "comment" then (if ac then ["# " ++ r.value] else [])
  else if r.kind = "domain" then ["DOMAIN-SUFFIX," ++ r.value]
  else if r.kind = "full" then ["DOMAIN," ++ r.value]
  else if r.kind = "keyword" then ["DOMAIN-KEYWORD," ++ r.value]
  else if r.kind = "regexp" then regexp_to_surge uw r.value
  else []

/-- The inner loop of `write_ruleset` over the already-rendered lines:
strip each line, skip empties, write valid lines, count the rest.
Returns (written lines in order, dropped count). -/
def writeLines (uw : Bool) : List String → List String × Nat
  | [] => ([], 0)
  | l :: ls =>
    let s := pyStrip l
    let rest := writeLines uw ls
    if s = "" then rest
    else if valid_line uw s then (s :: rest.1, rest.2)
    else (rest.1, rest.2 + 1)

/-- `write_ruleset` (source lines 135-147) as a pure function: the file
contents (list of written lines, in order) together with the returned
`dropped` tally. -/
def write_ruleset (uw ac : Bool) (rules : List Rule) : List String × Nat :=
  writeLines uw ((rules.map (to_surge_lines uw ac)).flatten)

/-- `collect_attributes` (source lines 128-133). -/
def collect_attributes : List Rule → Finset String
  | [] => ∅
  | r :: rs => r.attrs ∪ collect_attributes rs

/-- The attribute filter of `build_all` (source line 158):
`[r for r in rules if attr in r.attrs]`. -/
def attr_filtered (rules : List Rule) (a : String) : List Rule :=
  rules.filter (fun r => decide (a ∈ r.attrs))

/-- The attribute-scoped output of `build_all` (source lines 157-160):
written only when the filtered rule list is non-empty. -/
def attr_output (uw ac : Bool) (rules : List Rule) (a : String) :
    Option (List String × Nat) :=
  if attr_filtered rules a = [] then none
  else some (write_ruleset uw ac (attr_filtered rules a))

/-! ## Include resolver (`resolve_list`, source lines 54-77) -/

/-- The `dlc/data` directory: file name to list of lines. -/
abbrev FS := List (String × List String)

/-- The memoization cache (`cache` dict of `resolve_list`). -/
abbrev Cache := List (String × List Rule)

/-- Association-list lookup (Python `k in d` / `d[k]`). -/
def lookupA {α : Type} (k : String) : List (String × α) → Option α
  | [] => none
  | (k', v) :: rest => if k = k' then some v else lookupA k rest

/-- The synthetic diagnostic for a missing include target (source line 63). -/
def notFoundRule (name : String) : Rule :=
  ⟨"comment", "WARNING: include target not found: " ++ name, ∅⟩

/-- The synthetic diagnostic for a detected include cycle (source line 60). -/
def cycleRule (path : List String) : Rule :=
  ⟨"comment", "WARNING: cyclic include: " ++ joinArrow path, ∅⟩

/-- The body loop of `resolve_list` (source lines 66-74): fold the parsed
lines, splicing `rec`-resolved includes and appending concrete rules,
threading the cache. -/
def processLines (rec : String → Cache → Option (List Rule × Cache)) :
    List String → Cache → Option (List Rule × Cache)
  | [], cache => some ([], cache)
  | raw :: ls, cache =>
    match parse_line raw with
    | none => processLines rec ls cache
    | some (.inc tgt) =>
      match rec tgt cache with
      | none => none
      | some (rs, c') =>
        match processLines rec ls c' with
        | none => none
        | some (rest, c'') => some (rs ++ rest, c'')
    | some (.rule r) =>
      match processLines rec ls cache with
      | none => none
      | some (rest, c') => some (r :: rest, c')

/-- `resolve_list` (source lines 54-77).  Fuel bounds the recursion
depth (`none` = out of fuel; the Python recursion depth is bounded by
the number of files, see `resolveList_isSome_of_fuel`). -/
def resolveList (fs : FS) : Nat → String → List String → Cache →
    Option (List Rule × Cache)
  | 0, _, _, _ => none
  | fuel + 1, name, stack, cache =>
    match lookupA name cache with
    | some rs => some (rs, cache)
    | none =>
      if name ∈ stack then
        some ([cycleRule (stack ++ [name])], cache)
      else
        match lookupA name fs with
        | none => some ([notFoundRule name], cache)
        | some lines =>
          match processLines (fun t c => resolveList fs fuel t (stack ++ [name]) c)
              lines cache with
          | none => none
          | some (out, c') => some (out, (name, out) :: c')

/-- The distinct file names of the data directory. -/
def fsKeys (fs : FS) : List String := (fs.map Prod.fst).dedup

example :
    resolveList [("a", ["include:b"]), ("b", ["include:a"])] 3 "a" [] []
      = some ([cycleRule ["a", "b", "a"]],
              [("a", [cycleRule ["a", "b", "a"]]),
               ("b", [cycleRule ["a", "b", "a"]])]) := by decide

example :
    (resolveList [("a", ["include:b"]), ("b", ["include:a"])] 3 "a" [] []).map
        (fun p => p.1.map Rule.value)
      = some ["WARNING: cyclic include: a -> b -> a"] := by decide

example :
    (resolveList [("x", ["one.com @cn", "include:missing", "two.com"])] 2 "x" [] []).map
        Prod.fst
      = some [⟨"domain", "one.com", {"cn"}⟩,
              notFoundRule "missing",
              ⟨"domain", "two.com", ∅⟩] := by decide

/-! ## Helper lemmas on the character-level operations -/

lemma dropLit_self : ∀ (cs l : List Char), dropLit cs (cs ++ l) = some l := by
  intro cs
  induction cs with
  | nil => intro l; rfl
  | cons c cs ih => intro l; simp [dropLit, ih]

lemma takeWhile_append_of_all {p : Char → Bool} :
    ∀ {l₁ : List Char} (l₂ : List Char), (∀ a ∈ l₁, p a = true) →
      (l₁ ++ l₂).takeWhile p = l₁ ++ l₂.takeWhile p := by
  intro l₁
  induction l₁ with
  | nil => intro l₂ _; rfl
  | cons a l ih =>
    intro l₂ h
    have ha : p a = true := h a (by simp)
    simp [List.takeWhile_cons, ha]
    exact ih l₂ (fun b hb => h b (by simp [hb]))

lemma takeWhile_of_all {p : Char → Bool} :
    ∀ {l : List Char}, (∀ a ∈ l, p a = true) → l.takeWhile p = l := by
  intro l
  induction l with
  | nil => intro _; rfl
  | cons a l ih =>
    intro h
    have ha : p a = true := h a (by simp)
    rw [List.takeWhile_cons, if_pos ha, ih (fun b hb => h b (by simp [hb]))]

lemma data_hash_append (s t : String) :
    (s ++ "#" ++ t).data = s.data ++ '#' :: t.data := by
  simp [String.data_append]

lemma strip_comment_hash (s t : String) (h : '#' ∉ s.data) :
    strip_inline_comment (s ++ "#" ++ t) = pyStrip s := by
  unfold strip_inline_comment
  rw [data_hash_append]
  rw [takeWhile_append_of_all _ (fun a ha => by
    simp only [decide_eq_true_eq]
    exact fun heq => h (heq ▸ ha))]
  simp [List.takeWhile_cons]

lemma strip_comment_mk (l₁ l₂ : List Char) (h : '#' ∉ l₁) :
    strip_inline_comment ⟨l₁ ++ '#' :: l₂⟩ = pyStrip ⟨l₁⟩ := by
  unfold strip_inline_comment
  show pyStrip ⟨(l₁ ++ '#' :: l₂).takeWhile (fun c => decide (c ≠ '#'))⟩
      = pyStrip ⟨l₁⟩
  rw [takeWhile_append_of_all _ (fun a ha => by
    simp only [decide_eq_true_eq]
    exact fun heq => h (heq ▸ ha))]
  rw [List.takeWhile_cons]
  simp

lemma parse_line_hash (s t : String) (h : '#' ∉ s.data) :
    parse_line (s ++ "#" ++ t) = parseStripped (pyStrip (bomStrip s)) := by
  unfold parse_line
  have hbom : bomStrip (s ++ "#" ++ t)
      = ⟨s.data.filter (fun c => decide (c ≠ '﻿'))
          ++ '#' :: t.data.filter (fun c => decide (c ≠ '﻿'))⟩ := by
    unfold bomStrip
    rw [data_hash_append]
    simp [List.filter_append]
  rw [hbom]
  have hfil : '#' ∉ s.data.filter (fun c => decide (c ≠ '﻿')) :=
    fun hmem => h (List.mem_of_mem_filter hmem)
  rw [strip_comment_mk _ _ hfil]
  rfl

/-! ## Claim C3: translator on the two recognized shapes -/

/-- C3: `regexp_to_surge` on `^(.+\.)?example\.com$` yields exactly
`DOMAIN,example.com` without wildcard mode and additionally
`DOMAIN-WILDCARD,*.example.com` with it; on `^foo\.bar$` it yields
exactly `DOMAIN,foo.bar` in either mode. -/
theorem regexp_shapes_spec :
    regexp_to_surge false "^(.+\\.)?example\\.com$" = ["DOMAIN,example.com"]
    ∧ regexp_to_surge true "^(.+\\.)?example\\.com$"
        = ["DOMAIN,example.com", "DOMAIN-WILDCARD,*.example.com"]
    ∧ regexp_to_surge false "^foo\\.bar$" = ["DOMAIN,foo.bar"]
    ∧ regexp_to_surge true "^foo\\.bar$" = ["DOMAIN,foo.bar"] := by
  refine ⟨by decide, by decide, by decide, by decide⟩

lemma parse_attrs_cons_tag {t : String} {ts : List String} (h : tokIsTag t = true) :
    parse_attrs (t :: ts)
      = ((parse_attrs ts).1, insert (⟨t.data.drop 1⟩ : String) (parse_attrs ts).2) := by
  simp [parse_attrs, h]

lemma parse_attrs_cons_skip {t : String} {ts : List String} (h1 : tokIsTag t = false)
    (h2 : t = "") : parse_attrs (t :: ts) = parse_attrs ts := by
  subst h2
  simp [parse_attrs, h1]

lemma parse_attrs_cons_keep {t : String} {ts : List String} (h1 : tokIsTag t = false)
    (h2 : ¬ t = "") :
    parse_attrs (t :: ts) = (t :: (parse_attrs ts).1, (parse_attrs ts).2) := by
  simp [parse_attrs, h1, h2]

/-! ## Claim C8: attribute-tag tokenization -/

/-- C8: a token is a tag iff it begins with `@` and has length > 1; the
tags (with `@` stripped) form the attribute set and the remaining
non-empty tokens are kept in order; `domain.com @ads @cn` parses to a
domain rule with value `domain.com` and attrs `{ads, cn}`, while a line
of tags only parses to nothing. -/
theorem attr_tokenization_spec :
    (∀ t : String, tokIsTag t = true ↔ (t.data.head? = some '@' ∧ 1 < t.length))
    ∧ (∀ tokens : List String,
        (parse_attrs tokens).1
            = tokens.filter (fun t => !tokIsTag t && !(t == ""))
        ∧ (parse_attrs tokens).2
            = (tokens.filterMap (fun t =>
                if tokIsTag t then some (⟨t.data.drop 1⟩ : String)
                else none)).toFinset)
    ∧ parse_line "domain.com @ads @cn"
        = some (.rule ⟨"domain", "domain.com", {"ads", "cn"}⟩)
    ∧ parse_line "@onlytag" = none := by
  refine ⟨?_, ?_, by decide, by decide⟩
  · intro t
    simp only [tokIsTag, Bool.and_eq_true, decide_eq_true_eq, String.length]
  · intro tokens
    induction tokens with
    | nil => exact ⟨rfl, rfl⟩
    | cons t ts ih =>
      by_cases htag : tokIsTag t = true
      · rw [parse_attrs_cons_tag htag]
        refine ⟨?_, ?_⟩
        · simpa [List.filter_cons, htag] using ih.1
        · rw [List.filterMap_cons]
          simp only [htag, if_true]
          rw [List.toFinset_cons]
          exact congrArg _ ih.2
      · have hf : tokIsTag t = false := by simpa using htag
        by_cases hemp : t = ""
        · rw [parse_attrs_cons_skip hf hemp]
          subst hemp
          refine ⟨?_, ?_⟩
          · simpa [List.filter_cons, hf] using ih.1
          · simpa [List.filterMap_cons, hf] using ih.2
        · rw [parse_attrs_cons_keep hf hemp]
          refine ⟨?_, ?_⟩
          · simp only [List.filter_cons, hf, Bool.not_false, Bool.true_and,
              beq_iff_eq, hemp]
            simpa [hemp] using congrArg (List.cons t) ih.1
          · simpa [List.filterMap_cons, hf] using ih.2

/-! ## Claim C9: lexical comment stripping -/

/-- C9: everything from the first `#` onward is removed, with no escape
and no context awareness: `strip_inline_comment` of `s # anything` is the
trimmed `s` whenever `s` has no `#`, the parse of a line containing `#`
depends only on the text before the first `#`, and a `#` inside a
pattern value also starts a comment. -/
theorem comment_strip_spec :
    ∀ s t u : String, '#' ∉ s.data →
      (strip_inline_comment (s ++ "#" ++ t) = pyStrip s
        ∧ parse_line (s ++ "#" ++ t) = parse_line (s ++ "#" ++ u))
      ∧ parse_line "regexp:^a#b$" = some (.rule ⟨"regexp", "^a", ∅⟩) := by
  intro s t u h
  exact ⟨⟨strip_comment_hash s t h,
    (parse_line_hash s t h).trans (parse_line_hash s u h).symm⟩, by decide⟩

theorem comment_strip_spec_witness :
    (strip_inline_comment ("regexp:a" ++ "#" ++ "b$") = pyStrip "regexp:a"
      ∧ parse_line ("regexp:a" ++ "#" ++ "b$")
          = parse_line ("regexp:a" ++ "#" ++ "other"))
    ∧ parse_line "regexp:^a#b$" = some (.rule ⟨"regexp", "^a", ∅⟩) :=
  comment_strip_spec "regexp:a" "b$" "other" (by decide)

/-! ## Claim C10: byte-order-marker removal everywhere in the line -/

/-- C10: `parse_line` removes every `U+FEFF` anywhere in the line before
comment stripping, so two lines with the same `U+FEFF`-free content parse
identically; a marker embedded mid-line is removed. -/
theorem bom_removal_spec :
    ∀ s t : String,
      (s.data.filter (fun c => decide (c ≠ '﻿'))
          = t.data.filter (fun c => decide (c ≠ '﻿')) →
        parse_line s = parse_line t)
      ∧ parse_line "exam﻿ple.com"
          = some (.rule ⟨"domain", "example.com", ∅⟩) := by
  intro s t
  refine ⟨fun h => ?_, by decide⟩
  unfold parse_line
  have : bomStrip s = bomStrip t := by
    unfold bomStrip
    exact congrArg String.mk h
  rw [this]

theorem bom_removal_spec_witness :
    parse_line "a﻿b.com" = parse_line "ab.com﻿" :=
  (bom_removal_spec "a﻿b.com" "ab.com﻿").1 (by decide)

/-! ## Claim C4: generic fallback translation -/

/-- C4: on a pattern (with no surrounding whitespace, as every parsed
rule value has) matching neither recognized shape, the translator
returns exactly one line: the pattern with one leading `^` and one
trailing `$` stripped, wrapped in the generic URL-pattern form; in
particular for `^tracker\.[a-z]+\.net$`. -/
theorem regexp_fallback_spec :
    ∀ (uw : Bool) (pat : String),
      (pyStrip pat = pat → matchShape1 pat = none → matchShape2 pat = none →
        regexp_to_surge uw pat
          = ["URL-REGEX,^https?://" ++ dropAnchors pat ++ "(?::\\d+)?(?:/|$)"])
      ∧ regexp_to_surge uw "^tracker\\.[a-z]+\\.net$"
        = ["URL-REGEX,^https?://tracker\\.[a-z]+\\.net(?::\\d+)?(?:/|$)"] := by
  intro uw pat
  constructor
  · intro h1 h2 h3
    simp only [regexp_to_surge]
    rw [h1, h2, h3]
  · cases uw <;> decide

theorem regexp_fallback_spec_witness :
    regexp_to_surge false "^tracker\\.[a-z]+\\.net$"
      = ["URL-REGEX,^https?://" ++ dropAnchors "^tracker\\.[a-z]+\\.net$"
          ++ "(?::\\d+)?(?:/|$)"] :=
  (regexp_fallback_spec false "^tracker\\.[a-z]+\\.net$").1
    (by decide) (by decide) (by decide)

/-! ## Claim C7: keyword validation and the dropped-line tally -/

lemma dropLit_kw_domain (l : List Char) :
    dropLit "DOMAIN,".data ("DOMAIN-KEYWORD,".data ++ l) = none := rfl

lemma dropLit_kw_suffix (l : List Char) :
    dropLit "DOMAIN-SUFFIX,".data ("DOMAIN-KEYWORD,".data ++ l) = none := rfl

lemma dropLit_kw_url (l : List Char) :
    dropLit "URL-REGEX,".data ("DOMAIN-KEYWORD,".data ++ l) = none := rfl

lemma dropLit_kw_wild (l : List Char) :
    dropLit "DOMAIN-WILDCARD,*.".data ("DOMAIN-KEYWORD,".data ++ l) = none := rfl

lemma valid_line_keyword (uw : Bool) (v : String) :
    valid_line uw ("DOMAIN-KEYWORD," ++ v)
      = (decide (v.data ≠ []) && v.data.all (fun c => decide (c ≠ ',') && !pyIsSpace c)) := by
  unfold valid_line headBodyOk
  rw [String.data_append, dropLit_kw_domain, dropLit_kw_suffix, dropLit_self,
    dropLit_kw_url, dropLit_kw_wild]
  simp

lemma writeLines_fst (uw : Bool) :
    ∀ ls : List String,
      (writeLines uw ls).1
        = (ls.map pyStrip).filter (fun s => decide (s ≠ "") && valid_line uw s) := by
  intro ls
  induction ls with
  | nil => rfl
  | cons l ls ih =>
    by_cases h0 : pyStrip l = ""
    · simp [writeLines, h0, List.filter_cons, ih]
    · by_cases hv : valid_line uw (pyStrip l) = true
      · simp [writeLines, h0, hv, List.filter_cons, ih]
      · simp [writeLines, h0, hv, List.filter_cons, ih]

lemma writeLines_snd (uw : Bool) :
    ∀ ls : List String,
      (writeLines uw ls).2
        = (((ls.map pyStrip).filter
            (fun s => decide (s ≠ "") && !valid_line uw s))).length := by
  intro ls
  induction ls with
  | nil => rfl
  | cons l ls ih =>
    by_cases h0 : pyStrip l = ""
    · simp [writeLines, h0, List.filter_cons, ih]
    · by_cases hv : valid_line uw (pyStrip l) = true
      · simp [writeLines, h0, hv, List.filter_cons, ih]
      · simp [writeLines, h0, hv, List.filter_cons, ih]

/-- C7: the validator accepts a `DOMAIN-KEYWORD,` line exactly when the
value after the comma is non-empty and free of commas and whitespace;
the ruleset writer's output is exactly the valid non-blank stripped
lines and its tally counts exactly the invalid ones; a keyword rule
whose value contains a comma is dropped and counted. -/
theorem keyword_validator_spec :
    ∀ (uw ac : Bool) (v : String) (rules : List Rule),
      (valid_line uw ("DOMAIN-KEYWORD," ++ v) = true
        ↔ (v.data ≠ [] ∧ ∀ c ∈ v.data, c ≠ ',' ∧ pyIsSpace c = false))
      ∧ (write_ruleset uw ac rules).1
          = (((rules.map (to_surge_lines uw ac)).flatten).map pyStrip).filter
              (fun s => decide (s ≠ "") && valid_line uw s)
      ∧ (write_ruleset uw ac rules).2
          = ((((rules.map (to_surge_lines uw ac)).flatten).map pyStrip).filter
              (fun s => decide (s ≠ "") && !valid_line uw s)).length
      ∧ write_ruleset false false [⟨"keyword", "a,b", ∅⟩] = ([], 1) := by
  intro uw ac v rules
  refine ⟨?_, writeLines_fst uw _, writeLines_snd uw _, by decide⟩
  rw [valid_line_keyword]
  simp [List.all_eq_true, Bool.and_eq_true, decide_eq_true_eq, Bool.not_eq_true']

/-! ## Claim C6: attribute-scoped outputs -/

/-- The validated rendered lines one rule contributes to an output file. -/
def keptLines (uw ac : Bool) (r : Rule) : List String :=
  ((to_surge_lines uw ac r).map pyStrip).filter
    (fun s => decide (s ≠ "") && valid_line uw s)

lemma writeLines_append (uw : Bool) :
    ∀ l₁ l₂ : List String,
      writeLines uw (l₁ ++ l₂)
        = ((writeLines uw l₁).1 ++ (writeLines uw l₂).1,
           (writeLines uw l₁).2 + (writeLines uw l₂).2) := by
  intro l₁ l₂
  induction l₁ with
  | nil => simp [writeLines]
  | cons l ls ih =>
    by_cases h0 : pyStrip l = ""
    · simp [writeLines, h0, ih]
    · by_cases hv : valid_line uw (pyStrip l) = true
      · simp [writeLines, h0, hv, ih]
      · simp [writeLines, h0, hv, ih]
        omega

lemma write_ruleset_fst (uw ac : Bool) :
    ∀ rules : List Rule,
      (write_ruleset uw ac rules).1 = (rules.map (keptLines uw ac)).flatten := by
  intro rules
  induction rules with
  | nil => rfl
  | cons r rs ih =>
    show (writeLines uw (to_surge_lines uw ac r
        ++ (rs.map (to_surge_lines uw ac)).flatten)).1
      = keptLines uw ac r ++ (rs.map (keptLines uw ac)).flatten
    rw [writeLines_append]
    show (writeLines uw (to_surge_lines uw ac r)).1
        ++ (write_ruleset uw ac rs).1
      = keptLines uw ac r ++ (rs.map (keptLines uw ac)).flatten
    rw [writeLines_fst, ih]
    rfl

lemma mem_collect_attributes {a : String} :
    ∀ {rules : List Rule},
      a ∈ collect_attributes rules ↔ ∃ r ∈ rules, a ∈ r.attrs := by
  intro rules
  induction rules with
  | nil => simp [collect_attributes]
  | cons r rs ih => simp [collect_attributes, Finset.mem_union, ih]

/-- C6: for each attribute tag occurring in some resolved rule's attrs,
the attribute-scoped output is produced (the filtered rule list is then
necessarily non-empty) and contains exactly the validated rendered lines
of the rules carrying that tag, in rule order, and nothing else. -/
theorem attr_partition_spec :
    ∀ (uw ac : Bool) (rules : List Rule) (a : String),
      a ∈ collect_attributes rules →
      attr_output uw ac rules a
          = some (write_ruleset uw ac (attr_filtered rules a))
      ∧ (write_ruleset uw ac (attr_filtered rules a)).1
          = ((attr_filtered rules a).map (keptLines uw ac)).flatten := by
  intro uw ac rules a ha
  have hne : attr_filtered rules a ≠ [] := by
    obtain ⟨r, hr, hra⟩ := mem_collect_attributes.mp ha
    intro hempty
    have hmem : r ∈ attr_filtered rules a := by
      simp [attr_filtered, List.mem_filter, hr, hra]
    rw [hempty] at hmem
    exact List.not_mem_nil r hmem
  exact ⟨by simp [attr_output, hne], write_ruleset_fst uw ac _⟩

/-- Example rule-set for the C6 witness: one rule tagged `cn`, one untagged. -/
def cnRules : List Rule :=
  [⟨"domain", "tagged.com", {"cn"}⟩, ⟨"domain", "plain.com", ∅⟩]

theorem attr_partition_spec_witness :
    (attr_output false false cnRules "cn"
        = some (write_ruleset false false (attr_filtered cnRules "cn"))
      ∧ (write_ruleset false false (attr_filtered cnRules "cn")).1
        = ((attr_filtered cnRules "cn").map (keptLines false false)).flatten)
    ∧ attr_output false false cnRules "cn"
        = some (["DOMAIN-SUFFIX,tagged.com"], 0) :=
  ⟨attr_partition_spec false false cnRules "cn" (by decide), by decide⟩

/-! ## Resolver lemmas -/

lemma lookupA_cons_self {α : Type} (k : String) (v : α) (l : List (String × α)) :
    lookupA k ((k, v) :: l) = some v := by simp [lookupA]

lemma lookupA_mem {α : Type} {k : String} {v : α} :
    ∀ {l : List (String × α)}, lookupA k l = some v → k ∈ l.map Prod.fst := by
  intro l
  induction l with
  | nil => intro h; simp [lookupA] at h
  | cons p l ih =>
    obtain ⟨k', v'⟩ := p
    intro h
    by_cases hk : k = k'
    · simp [hk]
    · rw [lookupA, if_neg hk] at h
      simp only [List.map_cons]
      exact List.mem_cons_of_mem _ (ih h)

lemma processLines_isSome {rec : String → Cache → Option (List Rule × Cache)}
    (hrec : ∀ t c, (rec t c).isSome) :
    ∀ (ls : List String) (cache : Cache), (processLines rec ls cache).isSome := by
  intro ls
  induction ls with
  | nil => intro cache; simp [processLines]
  | cons raw ls ih =>
    intro cache
    simp only [processLines]
    cases hp : parse_line raw with
    | none => exact ih cache
    | some p =>
      cases p with
      | inc tgt =>
        have h1 := hrec tgt cache
        cases hr : rec tgt cache with
        | none => rw [hr] at h1; simp at h1
        | some q =>
          obtain ⟨rs, c'⟩ := q
          have h2 := ih c'
          cases hq : processLines rec ls c' with
          | none => rw [hq] at h2; simp at h2
          | some w => simp [hr, hq]
      | rule r =>
        have h2 := ih cache
        cases hq : processLines rec ls cache with
        | none => rw [hq] at h2; simp at h2
        | some w => simp [hq]

lemma processLines_congr {rec₁ rec₂ : String → Cache → Option (List Rule × Cache)}
    (h : ∀ t c, rec₁ t c = rec₂ t c) :
    ∀ (ls : List String) (cache : Cache),
      processLines rec₁ ls cache = processLines rec₂ ls cache := by
  intro ls
  induction ls with
  | nil => intro cache; rfl
  | cons raw ls ih =>
    intro cache
    cases hp : parse_line raw with
    | none =>
      simp only [processLines, hp]
      exact ih cache
    | some p =>
      cases p with
      | inc tgt =>
        simp only [processLines, hp, h tgt cache]
        cases rec₂ tgt cache with
        | none => rfl
        | some q =>
          obtain ⟨rs, c'⟩ := q
          simp only [ih c']
      | rule r =>
        simp only [processLines, hp, ih cache]

lemma resolveList_isSome_of_fuel (fs : FS) :
    ∀ (fuel : Nat) (name : String) (stack : List String) (cache : Cache),
      stack.Nodup → (∀ s ∈ stack, s ∈ fs.map Prod.fst) →
      (fsKeys fs).length < fuel + stack.length →
      (resolveList fs fuel name stack cache).isSome := by
  intro fuel
  induction fuel with
  | zero =>
    intro name stack cache hnd hsub hlt
    exfalso
    have hsub' : stack ⊆ fsKeys fs := by
      intro s hs
      simpa [fsKeys, List.mem_dedup] using hsub s hs
    have := (hnd.subperm hsub').length_le
    omega
  | succ f ih =>
    intro name stack cache hnd hsub hlt
    simp only [resolveList]
    cases hc : lookupA name cache with
    | some rs => simp
    | none =>
      by_cases hst : name ∈ stack
      · simp [hst]
      · rw [if_neg hst]
        cases hf : lookupA name fs with
        | none => simp
        | some lines =>
          have hrec : ∀ t c, (resolveList fs f t (stack ++ [name]) c).isSome := by
            intro t c
            apply ih
            · simp [List.nodup_append, hnd, hst]
            · intro s hs
              rcases List.mem_append.mp hs with h | h
              · exact hsub s h
              · have : s = name := by simpa using h
                subst this
                exact lookupA_mem hf
            · rw [List.length_append, List.length_singleton]
              omega
          have hps := processLines_isSome hrec lines cache
          cases hpl : processLines
              (fun t c => resolveList fs f t (stack ++ [name]) c) lines cache with
          | none => rw [hpl] at hps; simp at hps
          | some p =>
            obtain ⟨out, c'⟩ := p
            simp [hpl]

lemma resolveList_ext {fs fs' : FS} (h : ∀ n, lookupA n fs = lookupA n fs') :
    ∀ (fuel : Nat) (name : String) (st : List String) (cache : Cache),
      resolveList fs fuel name st cache = resolveList fs' fuel name st cache := by
  intro fuel
  induction fuel with
  | zero => intro name st cache; rfl
  | succ f ih =>
    intro name st cache
    simp only [resolveList]
    cases lookupA name cache with
    | some rs => rfl
    | none =>
      by_cases hst : name ∈ st
      · simp [hst]
      · rw [if_neg hst, if_neg hst, h name]
        cases hl : lookupA name fs' with
        | none => rfl
        | some lines =>
          simp only [processLines_congr (fun t c => ih t (st ++ [name]) c)
            lines cache]

lemma resolveList_again {fs : FS} {fuel : Nat} {name : String} {cache c' : Cache}
    {rs : List Rule} (h : resolveList fs fuel name [] cache = some (rs, c'))
    {st : List String} (hst : name ∉ st) (g : Nat) :
    resolveList fs (g + 1) name st c' = some (rs, c') := by
  cases fuel with
  | zero => simp [resolveList] at h
  | succ f =>
    simp only [resolveList] at h
    cases hc : lookupA name cache with
    | some rs0 =>
      simp only [hc, Option.some.injEq, Prod.mk.injEq] at h
      obtain ⟨h1, h2⟩ := h
      subst h1
      subst h2
      simp only [resolveList]
      rw [hc]
    | none =>
      simp only [hc] at h
      rw [if_neg (List.not_mem_nil name)] at h
      cases hf : lookupA name fs with
      | none =>
        simp only [hf, Option.some.injEq, Prod.mk.injEq] at h
        obtain ⟨h1, h2⟩ := h
        subst h1
        subst h2
        simp only [resolveList]
        rw [hc, if_neg hst, hf]
      | some lines =>
        simp only [hf] at h
        cases hp : processLines
            (fun t c => resolveList fs f t ([] ++ [name]) c) lines cache with
        | none =>
          simp only [hp] at h
          exact absurd h (by simp)
        | some p =>
          obtain ⟨out, c₀⟩ := p
          simp only [hp, Option.some.injEq, Prod.mk.injEq] at h
          obtain ⟨h1, h2⟩ := h
          subst h1
          subst h2
          simp only [resolveList]
          rw [lookupA_cons_self]

/-! ## Claim C1: cycles terminate and yield the path diagnostic -/

/-- C1: resolution always terminates (fuel beyond the number of files
always suffices, cycles included), and at the point where a cycle is
detected — the resolved name is already on the active stack — the call
returns exactly one synthetic comment rule naming the whole path joined
by ` -> `, leaving the cache unchanged (nothing is stored under the
cycling name). -/
theorem cycle_spec :
    ∀ (fs : FS) (name : String) (fuel : Nat) (stack : List String) (cache : Cache),
      ((fsKeys fs).length < fuel → (resolveList fs fuel name [] []).isSome)
      ∧ (name ∈ stack → lookupA name cache = none →
          resolveList fs (fuel + 1) name stack cache
            = some ([cycleRule (stack ++ [name])], cache)) := by
  intro fs name fuel stack cache
  constructor
  · intro hlt
    apply resolveList_isSome_of_fuel fs fuel name [] []
    · exact List.nodup_nil
    · intro s hs
      exact absurd hs (List.not_mem_nil s)
    · simpa using hlt
  · intro hst hc
    simp only [resolveList]
    rw [hc, if_pos hst]

/-- The two-file cycle `a -> b -> a` used in the C1 witness. -/
def cycFS : FS := [("a", ["include:b"]), ("b", ["include:a"])]

theorem cycle_spec_witness :
    (resolveList cycFS 3 "a" [] []).isSome
    ∧ resolveList cycFS 1 "a" ["a", "b"] []
        = some ([cycleRule ["a", "b", "a"]], []) :=
  ⟨(cycle_spec cycFS "a" 3 ["a", "b"] []).1 (by decide),
   (cycle_spec cycFS "a" 0 ["a", "b"] []).2 (by decide) (by decide)⟩

/-! ## Claim C2: purity and cache idempotence of resolution -/

/-- C2: the resolved sequence depends only on the file contents (two
directories with the same lookups resolve identically), and resolving a
name again after a completed resolution — in the cache state that
resolution produced — returns the same rule sequence and the same cache,
for any later fuel and any later stack not containing the name. -/
theorem resolve_pure_spec :
    ∀ (fs fs' : FS) (fuel fuel' : Nat) (name : String) (st : List String)
      (cache c' : Cache) (rs : List Rule),
      ((∀ n, lookupA n fs = lookupA n fs') →
        resolveList fs fuel name st cache = resolveList fs' fuel name st cache)
      ∧ (resolveList fs fuel name [] cache = some (rs, c') → name ∉ st →
          0 < fuel' → resolveList fs fuel' name st c' = some (rs, c')) := by
  intro fs fs' fuel fuel' name st cache c' rs
  constructor
  · intro h
    exact resolveList_ext h fuel name st cache
  · intro h hst hf
    cases fuel' with
    | zero => omega
    | succ g => exact resolveList_again h hst g

/-- Example directory for the C2 witness. -/
def exFS : FS := [("x", ["one.example", "include:y"]), ("y", ["two.example"])]

/-- The resolved rules of `x` in `exFS`. -/
def exRules : List Rule :=
  [⟨"domain", "one.example", ∅⟩, ⟨"domain", "two.example", ∅⟩]

/-- The cache produced by resolving `x` in `exFS` from a cold cache. -/
def exCache : Cache :=
  [("x", exRules), ("y", [⟨"domain", "two.example", ∅⟩])]

theorem resolve_pure_spec_witness :
    resolveList exFS 3 "x" [] [] = resolveList exFS 3 "x" [] []
    ∧ resolveList exFS 1 "x" [] exCache = some (exRules, exCache) :=
  ⟨(resolve_pure_spec exFS exFS 3 1 "x" [] [] exCache exRules).1 (fun n => rfl),
   (resolve_pure_spec exFS exFS 3 1 "x" [] [] exCache exRules).2
     (by decide) (by decide) (by decide)⟩

/-! ## Claim C5: missing include targets degrade to an inline diagnostic -/

/-- C5: resolving a name whose file does not exist returns exactly one
synthetic comment rule with the `target not found` diagnostic and leaves
the cache unchanged (nothing cached under the name); and inside an
enclosing rule-set, an include line naming such a target splices that
single diagnostic inline and processing of the remaining lines
continues unchanged. -/
theorem missing_target_spec :
    ∀ (fs : FS) (fuel : Nat) (name : String) (stack : List String) (cache : Cache)
      (raw : String) (ls : List String),
      lookupA name cache = none → name ∉ stack → lookupA name fs = none →
      (resolveList fs (fuel + 1) name stack cache
          = some ([notFoundRule name], cache))
      ∧ (parse_line raw = some (.inc name) →
          processLines (fun t c => resolveList fs (fuel + 1) t stack c)
              (raw :: ls) cache
            = Option.map (fun p => (notFoundRule name :: p.1, p.2))
                (processLines (fun t c => resolveList fs (fuel + 1) t stack c)
                  ls cache)) := by
  intro fs fuel name stack cache raw ls hc hst hf
  have h1 : resolveList fs (fuel + 1) name stack cache
      = some ([notFoundRule name], cache) := by
    simp only [resolveList]
    rw [hc, if_neg hst, hf]
  refine ⟨h1, fun hp => ?_⟩
  simp only [processLines, hp, h1]
  cases hq : processLines (fun t c => resolveList fs (fuel + 1) t stack c)
      ls cache with
  | none => rfl
  | some p =>
    obtain ⟨rest, c''⟩ := p
    rfl

/-- Example directory for the C5 witness: `top` includes a missing file. -/
def missFS : FS := [("top", ["keep.com", "include:absent", "tail.com"])]

theorem missing_target_spec_witness :
    (resolveList missFS 1 "absent" [] [] = some ([notFoundRule "absent"], []))
    ∧ processLines (fun t c => resolveList missFS 1 t [] c)
          ["include:absent", "tail.com"] []
        = Option.map (fun p => (notFoundRule "absent" :: p.1, p.2))
            (processLines (fun t c => resolveList missFS 1 t [] c)
              ["tail.com"] []) :=
  ⟨(missing_target_spec missFS 0 "absent" [] [] "include:absent" ["tail.com"]
      (by decide) (by decide) (by decide)).1,
   (missing_target_spec missFS 0 "absent" [] [] "include:absent" ["tail.com"]
      (by decide) (by decide) (by decide)).2 (by decide)⟩
